import Mathlib

set_option maxHeartbeats 1000000

namespace Repliear

/-! Shallow embedding of the server-side sync engine of repliear-row-versioning:
the push pipeline (src/server/src/push.ts) and the CVR differencing store
(src/server/src/pull/cvr.ts).  Postgres tables are lists of records; the
per-mutation transaction is explicit state passing with an aborted flag
mirroring Postgres aborted-transaction semantics. -/

/-- A client group row: `client_group(id, cvr_version, client_version)`. -/
structure ClientGroup where
  id : String
  cvrVersion : Int
  clientVersion : Int
deriving DecidableEq

/-- A client row: `client(id, client_group_id, last_mutation_id, client_version)`. -/
structure Client where
  id : String
  clientGroupID : String
  lastMutationID : Int
  clientVersion : Int
deriving DecidableEq

/-- The database state seen by the push pipeline.  The domain tables (issue,
description, comment) are abstracted as a journal of row-store write
statements, since the claims about push only ask whether row-store writes
persist, never what they contain. -/
structure DB where
  clientGroups : List ClientGroup
  clients : List Client
  rowStore : List String
deriving DecidableEq

/-- A mutation as validated by `mutationSchema`:
`{id: z.number(), clientID: z.string(), name: z.enum(mutationNames), args: z.any()}`. -/
structure Mutation where
  id : Int
  clientID : String
  name : String
  args : String
deriving DecidableEq

/-- A single statement issued against the row store by a mutation's effect:
either a write that succeeds, or a statement the database rejects.  A rejected
statement puts the enclosing Postgres transaction into the aborted state. -/
inductive DbStep where
  | write (w : String) : DbStep
  | dbFail (e : String) : DbStep
deriving DecidableEq

/-- An open transaction: the state as modified so far, plus whether a failed
statement has aborted it (Postgres: "current transaction is aborted"). -/
structure Txn where
  db : DB
  aborted : Bool
deriving DecidableEq

/-- Execute one statement inside a transaction.  On an aborted transaction
every statement fails; a `dbFail` statement marks the transaction aborted and
raises its error. -/
def execStep (t : Txn) (s : DbStep) : Txn × Option String :=
  if t.aborted then
    (t, some "current transaction is aborted")
  else
    match s with
    | DbStep.write w =>
      (⟨⟨t.db.clientGroups, t.db.clients, t.db.rowStore ++ [w]⟩, false⟩, none)
    | DbStep.dbFail e => (⟨t.db, true⟩, some e)

/-- Run a sequence of statements, stopping at (and raising) the first error,
as `await` does for each statement of a mutation's effect. -/
def runSteps (t : Txn) : List DbStep → Txn × Option String
  | [] => (t, none)
  | s :: rest =>
    match execStep t s with
    | (t2, none) => runSteps t2 rest
    | (t2, some e) => (t2, some e)

/-- Modelled from the spec: the `mutate` dispatch of push.ts.  Each case first
validates `mutation.args` against its schema (raising before any statement on
failure) and then issues row-store statements through the executor.  The
per-name programs live in the missing `data.ts`, so the dispatch outcome is a
parameter `effect`: either a parse error, or the list of statements to run. -/
def mutate (t : Txn) (m : Mutation) (effect : Mutation → Except String (List DbStep)) :
    Txn × Option String :=
  match effect m with
  | Except.error e => (t, some e)
  | Except.ok steps => runSteps t steps

/-- Modelled from the spec: committing the transaction of `transact` (missing
pg.ts).  Committing an aborted Postgres transaction rolls it back, leaving the
database as it was when the transaction began. -/
def commitTxn (base : DB) (t : Txn) : DB :=
  if t.aborted then base else t.db

/-- Replace the first element with the same key, or append (Postgres upsert on
a unique key column). -/
def upsertBy {α : Type} (key : α → String) (a : α) : List α → List α
  | [] => [a]
  | x :: xs => if key x == key a then a :: xs else x :: upsertBy key a xs

/-- Modelled from the spec: `getClientGroupForUpdate` of the missing data.ts.
Client group rows are created lazily with zero version numbers on first
reference. -/
def getClientGroupForUpdate (db : DB) (clientGroupID : String) : ClientGroup :=
  match db.clientGroups.find? (fun g => g.id == clientGroupID) with
  | some g => g
  | none => ⟨clientGroupID, 0, 0⟩

/-- Modelled from the spec: `getClientForUpdate` of the missing data.ts.
Client rows are created lazily with zero version numbers on first reference. -/
def getClientForUpdate (db : DB) (clientID : String) : Client :=
  match db.clients.find? (fun c => c.id == clientID) with
  | some c => c
  | none => ⟨clientID, "", 0, 0⟩

/-- Modelled from the spec: `putClientGroup` of the missing data.ts, an upsert
keyed on the client group id. -/
def putClientGroup (db : DB) (g : ClientGroup) : DB :=
  ⟨upsertBy ClientGroup.id g db.clientGroups, db.clients, db.rowStore⟩

/-- Modelled from the spec: `putClient` of the missing data.ts, an upsert
keyed on the client id. -/
def putClient (db : DB) (c : Client) : DB :=
  ⟨db.clientGroups, upsertBy Client.id c db.clients, db.rowStore⟩

/-- What `processMutation` returns to its caller when it does not throw:
`null`, or `{error: e}` after catching a domain error from `mutate`. -/
inductive PMRet where
  | nullRet : PMRet
  | errRet (e : String) : PMRet
deriving DecidableEq

deriving instance DecidableEq for Except

/-- Result of one `processMutation` call: the database after the transaction
committed or rolled back, and either a returned value or a thrown error. -/
structure PMOut where
  db : DB
  result : Except String PMRet
deriving DecidableEq

/-- Error thrown for a mutation id beyond `lastMutationID + 1`. -/
def futureMutationMsg : String := "Mutation is from the future - aborting"

/-- Write back the updated ClientGroup and Client rows, as the end of
`processMutation` does. -/
def applyVersionUpdates (db : DB) (clientGroupID : String) (m : Mutation)
    (cvrVersion nextClientVersion nextMutationID : Int) : DB :=
  putClient (putClientGroup db ⟨clientGroupID, cvrVersion, nextClientVersion⟩)
    ⟨m.clientID, clientGroupID, nextMutationID, nextClientVersion⟩

/-- One call of `processMutation(clientGroupID, mutation, error)` of push.ts,
running inside `transact`: read the locked ClientGroup and Client rows, skip a
replayed id, throw on a future id, otherwise run the effect (only when
`error` is null), catching its error into an `{error}` return, and on the
no-error path write the advanced version rows; commit (which rolls back an
aborted transaction), and roll back on a throw. -/
def processMutation (effect : Mutation → Except String (List DbStep))
    (db : DB) (clientGroupID : String) (m : Mutation) (err : Option String) : PMOut :=
  let baseClientGroup := getClientGroupForUpdate db clientGroupID
  let baseClient := getClientForUpdate db m.clientID
  let nextClientVersion := baseClientGroup.clientVersion + 1
  let nextMutationID := baseClient.lastMutationID + 1
  if m.id < nextMutationID then
    ⟨db, Except.ok PMRet.nullRet⟩
  else if nextMutationID < m.id then
    ⟨db, Except.error futureMutationMsg⟩
  else
    match (if err.isSome then ((⟨db, false⟩ : Txn), (none : Option String))
           else mutate ⟨db, false⟩ m effect) with
    | (t1, some e) => ⟨commitTxn db t1, Except.ok (PMRet.errRet e)⟩
    | (t1, none) =>
      ⟨commitTxn db ⟨applyVersionUpdates t1.db clientGroupID m
          baseClientGroup.cvrVersion nextClientVersion nextMutationID, t1.aborted⟩,
       Except.ok PMRet.nullRet⟩

/-- The mutation loop of `push`: each mutation is processed in its own
transaction; an `{error}` result triggers the second, error-carrying call for
the same mutation; a thrown error propagates and ends the batch. -/
def pushLoop (effect : Mutation → Except String (List DbStep))
    (db : DB) (clientGroupID : String) : List Mutation → DB × Option String
  | [] => (db, none)
  | m :: rest =>
    match (processMutation effect db clientGroupID m none).result with
    | Except.error e => ((processMutation effect db clientGroupID m none).db, some e)
    | Except.ok PMRet.nullRet =>
      pushLoop effect (processMutation effect db clientGroupID m none).db clientGroupID rest
    | Except.ok (PMRet.errRet e) =>
      match (processMutation effect (processMutation effect db clientGroupID m none).db
          clientGroupID m (some e)).result with
      | Except.error e2 =>
        ((processMutation effect (processMutation effect db clientGroupID m none).db
            clientGroupID m (some e)).db, some e2)
      | Except.ok _ =>
        pushLoop effect (processMutation effect (processMutation effect db clientGroupID m
            none).db clientGroupID m (some e)).db clientGroupID rest

/-- Modelled from the spec: `mutationNames` of the missing shared module; the
spec's mutation vocabulary (create issue with description, batch update
issues, create comment, delete comment). -/
def mutationNames : List String :=
  ["putIssue", "updateIssues", "putIssueComment", "deleteIssueComment"]

/-- A push request body: `{clientGroupID, mutations}`. -/
structure PushRequest where
  clientGroupID : String
  mutations : List Mutation
deriving DecidableEq

/-- The falsifiable part of `pushRequestSchema.parse`: every mutation's name
must be in the `z.enum(mutationNames)` enumeration (the remaining fields are
enforced by typing in this embedding). -/
def parsePushRequest (req : PushRequest) : Bool :=
  req.mutations.all (fun m => mutationNames.contains m.name)

/-- Error thrown by `pushRequestSchema.parse` on a malformed request. -/
def parseErrorMsg : String := "push request failed schema validation"

/-- The `push` entry point: parse the request (throwing on failure before any
mutation is processed), then run the mutation loop. -/
def push (effect : Mutation → Except String (List DbStep))
    (db : DB) (req : PushRequest) : DB × Option String :=
  if parsePushRequest req then
    pushLoop effect db req.clientGroupID req.mutations
  else
    (db, some parseErrorMsg)

/-- A domain row as the differ sees it: stable id plus the row-version bumped
on every write (`SearchResult` of data.ts). -/
structure DRow where
  id : String
  rowversion : Int
deriving DecidableEq

/-- A `cvr_entry(client_group_id, "order", tbl, row_id, row_version)` row. -/
structure CVREntry where
  client_group_id : String
  order : Int
  tbl : Nat
  row_id : String
  row_version : Int
deriving DecidableEq

/-- A `cvr_delete_entry(client_group_id, "order", tbl, row_id)` row. -/
structure CVRDeleteEntry where
  client_group_id : String
  order : Int
  tbl : Nat
  row_id : String
deriving DecidableEq

/-- The `findUnsentItems` query of cvr.ts: rows of the table whose
`(id, rowversion)` pair is not among the `(row_id, row_version)` pairs of
`cvr_entry` rows for this client group and table at `"order" <= $2`,
bounded by `LIMIT $4`. -/
def findUnsentItems (rows : List DRow) (entries : List CVREntry)
    (clientGroupID : String) (order : Int) (tbl : Nat) (limit : Nat) : List DRow :=
  (rows.filter (fun t =>
    !(entries.any (fun e =>
      e.row_id == t.id && e.row_version == t.rowversion &&
      e.client_group_id == clientGroupID && decide (e.order ≤ order) &&
      e.tbl == tbl)))).take limit

/-- The `findDeletions` query of cvr.ts: `row_id`s of `cvr_entry` rows of this
table, client group and `"order" <= $3` whose row no longer exists in the
table and which have no `cvr_delete_entry` for the same table, row, client
group and `"order" <= $3`, bounded by `LIMIT $4`. -/
def findDeletions (rows : List DRow) (entries : List CVREntry)
    (deletes : List CVRDeleteEntry) (clientGroupID : String) (order : Int)
    (tbl : Nat) (limit : Nat) : List String :=
  ((entries.filter (fun e =>
    e.tbl == tbl &&
    !(rows.any (fun r => r.id == e.row_id)) &&
    e.client_group_id == clientGroupID &&
    decide (e.order ≤ order) &&
    !(deletes.any (fun d =>
      d.tbl == tbl && d.row_id == e.row_id &&
      d.client_group_id == clientGroupID && decide (d.order ≤ order))))).map
    (fun e => e.row_id)).take limit

/-- The `dropCVREntries` operation of cvr.ts: delete from `cvr_entry` and
`cvr_delete_entry` every row of this client group with `"order" > $2`. -/
def dropCVREntries (entries : List CVREntry) (deletes : List CVRDeleteEntry)
    (clientGroupID : String) (order : Int) : List CVREntry × List CVRDeleteEntry :=
  (entries.filter (fun e => !(e.client_group_id == clientGroupID && decide (order < e.order))),
   deletes.filter (fun d => !(d.client_group_id == clientGroupID && decide (order < d.order))))

/-- The conflict target of `recordUpdates`: `(client_group_id, tbl, row_id)`. -/
def entryKeyMatches (x : CVREntry) (g : String) (t : Nat) (rid : String) : Bool :=
  x.client_group_id == g && x.tbl == t && x.row_id == rid

/-- One row of the `recordUpdates` insert with
`ON CONFLICT (client_group_id, tbl, row_id) DO UPDATE SET row_version, "order"`:
if a row with the key exists, its `row_version` and `order` are overwritten,
otherwise the new row is appended. -/
def upsertCVREntry (entries : List CVREntry) (e : CVREntry) : List CVREntry :=
  if entries.any (fun x => entryKeyMatches x e.client_group_id e.tbl e.row_id) then
    entries.map (fun x =>
      if entryKeyMatches x e.client_group_id e.tbl e.row_id then
        ⟨x.client_group_id, e.order, x.tbl, x.row_id, e.row_version⟩
      else x)
  else entries ++ [e]

/-- The `recordUpdates` operation of cvr.ts: upsert one `cvr_entry` row per
update, carrying the update's id and rowversion at the given order. -/
def recordUpdates (entries : List CVREntry) (clientGroupID : String) (order : Int)
    (tbl : Nat) (updates : List DRow) : List CVREntry :=
  updates.foldl
    (fun acc u => upsertCVREntry acc ⟨clientGroupID, order, tbl, u.id, u.rowversion⟩)
    entries

/-- The `recordDeletes` operation of cvr.ts: plain insert of one
`cvr_delete_entry` row per id at the given order. -/
def recordDeletes (deletes : List CVRDeleteEntry) (clientGroupID : String)
    (order : Int) (tbl : Nat) (ids : List String) : List CVRDeleteEntry :=
  deletes ++ ids.map (fun rid => ⟨clientGroupID, order, tbl, rid⟩)

/-- Keys are pairwise distinct: at most one `cvr_entry` row per
`(client_group_id, tbl, row_id)`, the table's unique constraint. -/
def UniqueKeys (l : List CVREntry) : Prop :=
  l.Pairwise (fun a b =>
    ¬(a.client_group_id = b.client_group_id ∧ a.tbl = b.tbl ∧ a.row_id = b.row_id))

/-! Concrete fixtures used by the witness and counterexample theorems. -/

/-- A two-row table. -/
def wRows : List DRow := [⟨"r1", 1⟩, ⟨"r2", 2⟩]

/-- CVR entries of an unrelated client group. -/
def wEntries : List CVREntry := [⟨"g2", 1, 1, "r1", 1⟩]

/-- Two entries of one group on different tables sharing a row id: a legal
unique-key state. -/
def wEntries2 : List CVREntry := [⟨"g1", 1, 1, "r1", 1⟩, ⟨"g1", 1, 2, "r1", 3⟩]

/-- Entries of two groups at several orders. -/
def wEntries3 : List CVREntry :=
  [⟨"g1", 1, 1, "r1", 1⟩, ⟨"g1", 2, 1, "r2", 1⟩, ⟨"g2", 3, 1, "r3", 1⟩]

/-- An empty database. -/
def exDb : DB := ⟨[], [], []⟩

/-- An effect that issues no statement. -/
def exEffectNoop : Mutation → Except String (List DbStep) := fun _ => Except.ok []

/-- An effect that writes one row. -/
def exEffectWrite : Mutation → Except String (List DbStep) :=
  fun _ => Except.ok [DbStep.write "w1"]

/-- An effect whose first write succeeds and whose second statement fails. -/
def exEffectFail : Mutation → Except String (List DbStep) :=
  fun _ => Except.ok [DbStep.write "w1", DbStep.dbFail "boom"]

/-- A first mutation of a fresh client. -/
def exM1 : Mutation := ⟨1, "c1", "putIssue", "a"⟩

/-- A mutation far beyond the next expected id of a fresh client. -/
def exM5 : Mutation := ⟨5, "c1", "putIssue", "a"⟩

/-- A push request whose first mutation has a name outside `mutationNames`. -/
def exReqBad : PushRequest :=
  ⟨"g1", [⟨1, "c1", "createIssueV2", "a"⟩, ⟨1, "c1", "putIssue", "a"⟩]⟩

/-- The state after `exM1` with `exEffectWrite` runs against `exDb`. -/
def exDbAfter : DB := ⟨[⟨"g1", 0, 1⟩], [⟨"c1", "g1", 1, 1⟩], ["w1"]⟩

/-! Helper lemmas for the CVR store. -/

/-- The `DO UPDATE` arm of the upsert leaves the conflict-target key columns
of a row unchanged. -/
theorem upsertKeep (e : CVREntry) (x : CVREntry) :
    ((if entryKeyMatches x e.client_group_id e.tbl e.row_id then
      (⟨x.client_group_id, e.order, x.tbl, x.row_id, e.row_version⟩ : CVREntry)
      else x).client_group_id = x.client_group_id) ∧
    ((if entryKeyMatches x e.client_group_id e.tbl e.row_id then
      (⟨x.client_group_id, e.order, x.tbl, x.row_id, e.row_version⟩ : CVREntry)
      else x).tbl = x.tbl) ∧
    ((if entryKeyMatches x e.client_group_id e.tbl e.row_id then
      (⟨x.client_group_id, e.order, x.tbl, x.row_id, e.row_version⟩ : CVREntry)
      else x).row_id = x.row_id) := by
  split <;> simp

/-- One upsert preserves the unique-key constraint of `cvr_entry`. -/
theorem upsertCVREntry_uniqueKeys (entries : List CVREntry) (e : CVREntry)
    (h : UniqueKeys entries) : UniqueKeys (upsertCVREntry entries e) := by
  unfold upsertCVREntry
  split
  · apply List.Pairwise.map
    · intro a b hab
      have ha := upsertKeep e a
      have hb := upsertKeep e b
      rw [ha.1, ha.2.1, ha.2.2, hb.1, hb.2.1, hb.2.2]
      exact hab
    · exact h
  · rw [UniqueKeys, List.pairwise_append]
    refine ⟨h, List.pairwise_singleton _ _, ?_⟩
    intro a ha b hb
    simp at hb
    subst hb
    rename_i hc
    simp [List.any_eq_true, entryKeyMatches] at hc
    intro hk
    exact absurd hk.2.2 (hc a ha hk.1 hk.2.1)

/-- `recordUpdates` preserves the unique-key constraint of `cvr_entry`. -/
theorem recordUpdates_uniqueKeys (updates : List DRow) (entries : List CVREntry)
    (g : String) (o : Int) (t : Nat) (h : UniqueKeys entries) :
    UniqueKeys (recordUpdates entries g o t updates) := by
  induction updates generalizing entries with
  | nil => exact h
  | cons u us ih =>
    simp only [recordUpdates, List.foldl_cons]
    exact ih _ (upsertCVREntry_uniqueKeys _ _ h)

/-- Upserting a row whose key already exists overwrites in place: the store
does not grow and afterwards contains the new row. -/
theorem upsert_overwrite (entries : List CVREntry) (e : CVREntry)
    (hc : entries.any (fun x => entryKeyMatches x e.client_group_id e.tbl e.row_id) = true) :
    (upsertCVREntry entries e).length = entries.length ∧ e ∈ upsertCVREntry entries e := by
  unfold upsertCVREntry
  rw [if_pos hc]
  refine ⟨List.length_map _ _, ?_⟩
  obtain ⟨x, hx, hm⟩ := List.any_eq_true.mp hc
  apply List.mem_map.mpr
  refine ⟨x, hx, ?_⟩
  simp [entryKeyMatches] at hm
  obtain ⟨⟨h1, h2⟩, h3⟩ := hm
  rw [if_pos (by simp [entryKeyMatches, h1, h2, h3])]
  rw [h1, h2, h3]

/-! Claim theorems for the CVR differ and store. -/

/-- C6: `findUnsentItems` returns exactly the Row Store rows of the table
whose (id, row-version) pair is absent from the CVREntry rows recorded for
the client group and table at order at most `baseOrder`, truncated to at most
`limit` rows; and for a client group with no CVR entries (never synced) and
`limit` at least the table size, it returns exactly the full table
contents. -/
theorem c6_findUnsentItems_puts (rows : List DRow) (entries : List CVREntry)
    (g : String) (o : Int) (t : Nat) (limit : Nat) :
    (findUnsentItems rows entries g o t limit =
      (rows.filter (fun r => decide (¬ ∃ e ∈ entries, e.client_group_id = g ∧ e.order ≤ o ∧
        e.tbl = t ∧ e.row_id = r.id ∧ e.row_version = r.rowversion))).take limit) ∧
    ((∀ e ∈ entries, e.client_group_id ≠ g) → rows.length ≤ limit →
      findUnsentItems rows entries g o t limit = rows) := by
  constructor
  · unfold findUnsentItems
    congr 1
    apply List.filter_congr
    intro r _
    rw [Bool.eq_iff_iff]
    simp [List.any_eq_true]
    constructor
    · intro h x hx hg ho ht hrid hrv
      exact h x hx hrid hrv hg ho ht
    · intro h x hx hrid hrv hg ho ht
      exact h x hx hg ho ht hrid hrv
  · intro h1 h2
    unfold findUnsentItems
    rw [List.filter_eq_self.mpr, List.take_of_length_le h2]
    intro r _
    simp [List.any_eq_true]
    intro e he hrid hrv hgrp
    exact absurd hgrp (h1 e he)

/-- C6 witness: a never-synced client group with two rows and a generous
limit receives exactly the whole table. -/
theorem c6_witness : findUnsentItems wRows wEntries "g1" 0 1 10 = wRows :=
  (c6_findUnsentItems_puts wRows wEntries "g1" 0 1 10).2 (by decide) (by decide)

/-- C7: `findDeletions` returns exactly the row ids present in CVREntry for
the client group and table at order at most `baseOrder`, absent from the
current table, and without a CVRDeleteEntry for the same key at order at most
`baseOrder`, truncated to at most `limit`; consequently a deletion recorded
by `recordDeletes` at an order at most `baseOrder` is never returned again. -/
theorem c7_findDeletions_deletes (rows : List DRow) (entries : List CVREntry)
    (dels : List CVRDeleteEntry) (g : String) (o : Int) (t : Nat) (limit : Nat) :
    (findDeletions rows entries dels g o t limit =
      ((entries.filter (fun e => decide (e.tbl = t ∧ (¬ ∃ r ∈ rows, r.id = e.row_id) ∧
        e.client_group_id = g ∧ e.order ≤ o ∧
        ¬ ∃ d ∈ dels, d.tbl = t ∧ d.row_id = e.row_id ∧ d.client_group_id = g ∧
          d.order ≤ o))).map (fun e => e.row_id)).take limit) ∧
    (∀ o2 ids rid, o2 ≤ o → rid ∈ ids →
      rid ∉ findDeletions rows entries (recordDeletes dels g o2 t ids) g o t limit) := by
  constructor
  · unfold findDeletions
    congr 2
    apply List.filter_congr
    intro e _
    rw [Bool.eq_iff_iff]
    simp [List.any_eq_true]
    tauto
  · intro o2 ids rid ho2 hrid hmem
    unfold findDeletions at hmem
    have hmem2 := (List.take_sublist _ _).mem hmem
    obtain ⟨e, he, heq⟩ := List.mem_map.mp hmem2
    have hf := (List.mem_filter.mp he).2
    simp [List.any_eq_true] at hf
    obtain ⟨⟨⟨⟨-, -⟩, -⟩, -⟩, hnone⟩ := hf
    have hd : (⟨g, o2, t, rid⟩ : CVRDeleteEntry) ∈ recordDeletes dels g o2 t ids := by
      unfold recordDeletes
      exact List.mem_append_right _ (List.mem_map.mpr ⟨rid, hrid, rfl⟩)
    have hlt := hnone _ hd rfl heq.symm rfl
    simp at hlt
    omega

/-- C7 witness at concrete inputs: a freshly recorded delete at the base
order is not returned by the next `findDeletions`. -/
theorem c7_witness :
    "r9" ∉ findDeletions wRows wEntries (recordDeletes [] "g1" 1 1 ["r9"]) "g1" 1 1 10 :=
  (c7_findDeletions_deletes wRows wEntries [] "g1" 1 1 10).2 1 ["r9"] "r9"
    (by decide) (by decide)

/-- C8: `dropCVREntries` removes exactly the CVREntry and CVRDeleteEntry rows
of the given client group with order strictly greater than the given order;
rows of the group at or below that order, and rows of every other client
group, are left in place. -/
theorem c8_dropCVREntries_frame (entries : List CVREntry) (dels : List CVRDeleteEntry)
    (g : String) (o : Int) :
    (dropCVREntries entries dels g o).1 =
      entries.filter (fun e => decide (¬(e.client_group_id = g ∧ o < e.order))) ∧
    (dropCVREntries entries dels g o).2 =
      dels.filter (fun d => decide (¬(d.client_group_id = g ∧ o < d.order))) ∧
    (∀ e : CVREntry, e ∈ (dropCVREntries entries dels g o).1 ↔
      e ∈ entries ∧ ¬(e.client_group_id = g ∧ o < e.order)) ∧
    (∀ d : CVRDeleteEntry, d ∈ (dropCVREntries entries dels g o).2 ↔
      d ∈ dels ∧ ¬(d.client_group_id = g ∧ o < d.order)) := by
  refine ⟨?_, ?_, ?_, ?_⟩
  · apply List.filter_congr
    intro e _
    rw [Bool.eq_iff_iff]
    simp
  · apply List.filter_congr
    intro d _
    rw [Bool.eq_iff_iff]
    simp
  · intro e
    unfold dropCVREntries
    rw [List.mem_filter]
    simp
    tauto
  · intro d
    unfold dropCVREntries
    rw [List.mem_filter]
    simp
    tauto

/-- C9: the CVREntry store keeps at most one row per
(clientGroupID, table, rowID): `recordUpdates` preserves the unique-key
invariant, and recording an update whose key already exists overwrites the
stored row-version and order in place instead of adding a second row. -/
theorem c9_recordUpdates_upsert (entries : List CVREntry) (g : String) (o : Int)
    (t : Nat) (updates : List DRow) (u : DRow) (h : UniqueKeys entries) :
    UniqueKeys (recordUpdates entries g o t updates) ∧
    (entries.any (fun x => entryKeyMatches x g t u.id) = true →
      (recordUpdates entries g o t [u]).length = entries.length ∧
      (⟨g, o, t, u.id, u.rowversion⟩ : CVREntry) ∈ recordUpdates entries g o t [u]) := by
  refine ⟨recordUpdates_uniqueKeys updates entries g o t h, fun hc => ?_⟩
  have hrw : recordUpdates entries g o t [u] =
      upsertCVREntry entries ⟨g, o, t, u.id, u.rowversion⟩ := rfl
  rw [hrw]
  exact upsert_overwrite entries ⟨g, o, t, u.id, u.rowversion⟩ hc

/-- C9 witness at concrete inputs: re-recording row r1 of table 1 at a later
order keeps the store at two rows and stores the new version and order. -/
theorem c9_witness :
    UniqueKeys (recordUpdates wEntries2 "g1" 2 1 [⟨"r1", 5⟩]) ∧
    (recordUpdates wEntries2 "g1" 2 1 [⟨"r1", 5⟩]).length = wEntries2.length ∧
    (⟨"g1", 2, 1, "r1", 5⟩ : CVREntry) ∈ recordUpdates wEntries2 "g1" 2 1 [⟨"r1", 5⟩] := by
  have h := c9_recordUpdates_upsert wEntries2 "g1" 2 1 [⟨"r1", 5⟩] ⟨"r1", 5⟩
    (by unfold UniqueKeys; decide)
  exact ⟨h.1, (h.2 (by decide)).1, (h.2 (by decide)).2⟩

/-- C8 witness at concrete inputs: dropping above order 1 removes exactly the
group-g1 row at order 2 and keeps the rest. -/
theorem c8_witness :
    (dropCVREntries wEntries3 [] "g1" 1).1 =
      [⟨"g1", 1, 1, "r1", 1⟩, ⟨"g2", 3, 1, "r3", 1⟩] :=
  ((c8_dropCVREntries_frame wEntries3 [] "g1" 1).1).trans (by decide)

/-! Helper lemmas for the push pipeline. -/

/-- Looking an upserted element up by its own key finds exactly it. -/
theorem find?_upsertBy {α : Type} (key : α → String) (a : α) (l : List α) :
    (upsertBy key a l).find? (fun x => key x == key a) = some a := by
  induction l with
  | nil => simp [upsertBy, List.find?]
  | cons x xs ih =>
    unfold upsertBy
    by_cases hx : (key x == key a) = true
    · rw [if_pos hx]
      simp only [List.find?, beq_self_eq_true]
    · rw [if_neg hx]
      rw [Bool.not_eq_true] at hx
      simp only [List.find?, hx]
      exact ih

/-- Reading a client back after `putClient` yields the written row. -/
theorem getClientForUpdate_putClient (db : DB) (c : Client) :
    getClientForUpdate (putClient db c) c.id = c := by
  unfold getClientForUpdate putClient
  simp only
  rw [find?_upsertBy Client.id c db.clients]

/-- Reading a client group back after `putClientGroup` yields the written
row. -/
theorem getClientGroupForUpdate_putClientGroup (db : DB) (g : ClientGroup) :
    getClientGroupForUpdate (putClientGroup db g) g.id = g := by
  unfold getClientGroupForUpdate putClientGroup
  simp only
  rw [find?_upsertBy ClientGroup.id g db.clientGroups]

/-- `putClient` does not touch the client group table. -/
theorem getClientGroupForUpdate_putClient (db : DB) (c : Client) (gid : String) :
    getClientGroupForUpdate (putClient db c) gid = getClientGroupForUpdate db gid := rfl

/-- The version write-back stores the new client row. -/
theorem applyVU_client (db : DB) (g : String) (m : Mutation) (cv ncv nmid : Int) :
    getClientForUpdate (applyVersionUpdates db g m cv ncv nmid) m.clientID =
      ⟨m.clientID, g, nmid, ncv⟩ :=
  getClientForUpdate_putClient _ _

/-- The version write-back stores the new client group row. -/
theorem applyVU_group (db : DB) (g : String) (m : Mutation) (cv ncv nmid : Int) :
    getClientGroupForUpdate (applyVersionUpdates db g m cv ncv nmid) g = ⟨g, cv, ncv⟩ := by
  unfold applyVersionUpdates
  rw [getClientGroupForUpdate_putClient]
  exact getClientGroupForUpdate_putClientGroup _ _

/-- The version write-back never touches the row store. -/
theorem applyVU_rowStore (db : DB) (g : String) (m : Mutation) (cv ncv nmid : Int) :
    (applyVersionUpdates db g m cv ncv nmid).rowStore = db.rowStore := rfl

/-- A statement sequence that raises an error from a live transaction leaves
the transaction aborted. -/
theorem runSteps_err_aborted (steps : List DbStep) :
    ∀ (t : Txn), t.aborted = false → ∀ e, (runSteps t steps).2 = some e →
    (runSteps t steps).1.aborted = true := by
  induction steps with
  | nil => intro t ht e h; simp [runSteps] at h
  | cons s rest ih =>
    intro t ht e h
    cases s with
    | write w =>
      simp only [runSteps, execStep, ht, Bool.false_eq_true, if_false] at h ⊢
      exact ih _ rfl e h
    | dbFail e2 =>
      simp only [runSteps, execStep, ht, Bool.false_eq_true, if_false] at h ⊢

/-- A statement sequence that raises no error keeps the transaction live. -/
theorem runSteps_ok_aborted (steps : List DbStep) :
    ∀ (t : Txn), t.aborted = false → (runSteps t steps).2 = none →
    (runSteps t steps).1.aborted = false := by
  induction steps with
  | nil => intro t ht h; simpa [runSteps] using ht
  | cons s rest ih =>
    intro t ht h
    cases s with
    | write w =>
      simp only [runSteps, execStep, ht, Bool.false_eq_true, if_false] at h ⊢
      exact ih _ rfl h
    | dbFail e2 =>
      simp only [runSteps, execStep, ht, Bool.false_eq_true, if_false] at h ⊢
      cases h

/-- Committing after a failed effect restores the pre-transaction state:
a parse error happens before any statement, and a statement error leaves the
transaction aborted, so its commit rolls back. -/
theorem mutate_err_commit (effect : Mutation → Except String (List DbStep))
    (m : Mutation) (db : DB) (e : String)
    (h : (mutate ⟨db, false⟩ m effect).2 = some e) :
    commitTxn db (mutate ⟨db, false⟩ m effect).1 = db := by
  unfold mutate at h ⊢
  cases heff : effect m with
  | error e2 => rw [heff] at h; simp [commitTxn]
  | ok steps =>
    rw [heff] at h
    have ha := runSteps_err_aborted steps ⟨db, false⟩ rfl e h
    simp [commitTxn, ha]

/-- A successful effect leaves the transaction live. -/
theorem mutate_ok_aborted (effect : Mutation → Except String (List DbStep))
    (m : Mutation) (db : DB)
    (h : (mutate ⟨db, false⟩ m effect).2 = none) :
    (mutate ⟨db, false⟩ m effect).1.aborted = false := by
  unfold mutate at h ⊢
  cases heff : effect m with
  | error e2 => rfl
  | ok steps =>
    rw [heff] at h
    exact runSteps_ok_aborted steps ⟨db, false⟩ rfl h

/-- A replayed mutation id commits a no-op and returns null. -/
theorem pm_skip (effect : Mutation → Except String (List DbStep))
    (db : DB) (g : String) (m : Mutation) (err : Option String)
    (h : m.id < (getClientForUpdate db m.clientID).lastMutationID + 1) :
    processMutation effect db g m err = ⟨db, Except.ok PMRet.nullRet⟩ := by
  simp only [processMutation]
  rw [if_pos h]

/-- A future mutation id throws, and the rolled-back transaction leaves the
state unchanged. -/
theorem pm_future (effect : Mutation → Except String (List DbStep))
    (db : DB) (g : String) (m : Mutation) (err : Option String)
    (h : (getClientForUpdate db m.clientID).lastMutationID + 1 < m.id) :
    processMutation effect db g m err = ⟨db, Except.error futureMutationMsg⟩ := by
  simp only [processMutation]
  rw [if_neg (by omega), if_pos h]

/-- The expected mutation id with a failing effect: the caught error is
returned, and the committed state is unchanged. -/
theorem pm_err (effect : Mutation → Except String (List DbStep))
    (db : DB) (g : String) (m : Mutation) (e : String)
    (hid : m.id = (getClientForUpdate db m.clientID).lastMutationID + 1)
    (herr : (mutate ⟨db, false⟩ m effect).2 = some e) :
    processMutation effect db g m none = ⟨db, Except.ok (PMRet.errRet e)⟩ := by
  simp only [processMutation]
  rw [if_neg (by omega), if_neg (by omega)]
  simp only [Option.isSome_none, Bool.false_eq_true, if_false]
  rcases hm : mutate ⟨db, false⟩ m effect with ⟨t1, r⟩
  rw [hm] at herr
  simp only at herr
  subst herr
  simp only
  have hc := mutate_err_commit effect m db e (by rw [hm])
  rw [hm] at hc
  simp only at hc
  rw [hc]

/-- The expected mutation id with a successful effect: the effect's writes
and the version write-back commit together. -/
theorem pm_ok (effect : Mutation → Except String (List DbStep))
    (db : DB) (g : String) (m : Mutation)
    (hid : m.id = (getClientForUpdate db m.clientID).lastMutationID + 1)
    (hok : (mutate ⟨db, false⟩ m effect).2 = none) :
    processMutation effect db g m none =
      ⟨applyVersionUpdates (mutate ⟨db, false⟩ m effect).1.db g m
        (getClientGroupForUpdate db g).cvrVersion
        ((getClientGroupForUpdate db g).clientVersion + 1)
        ((getClientForUpdate db m.clientID).lastMutationID + 1),
       Except.ok PMRet.nullRet⟩ := by
  simp only [processMutation]
  rw [if_neg (by omega), if_neg (by omega)]
  simp only [Option.isSome_none, Bool.false_eq_true, if_false]
  have hab := mutate_ok_aborted effect m db hok
  rcases hm : mutate ⟨db, false⟩ m effect with ⟨t1, r⟩
  rw [hm] at hok hab
  simp only at hok hab
  subst hok
  simp only
  rw [hab]
  simp [commitTxn]

/-- The second, error-carrying pass: the effect is skipped and only the
version write-back commits. -/
theorem pm_errpass (effect : Mutation → Except String (List DbStep))
    (db : DB) (g : String) (m : Mutation) (e : String)
    (hid : m.id = (getClientForUpdate db m.clientID).lastMutationID + 1) :
    processMutation effect db g m (some e) =
      ⟨applyVersionUpdates db g m (getClientGroupForUpdate db g).cvrVersion
        ((getClientGroupForUpdate db g).clientVersion + 1)
        ((getClientForUpdate db m.clientID).lastMutationID + 1),
       Except.ok PMRet.nullRet⟩ := by
  simp only [processMutation]
  rw [if_neg (by omega), if_neg (by omega)]
  simp only [Option.isSome_some, if_true]
  simp [commitTxn]

/-! Claim theorems for the push pipeline. -/

/-- C1: each mutation's Row Store effect and version updates run inside one
transaction per mutation, so a mutation whose effect raises an error partway
(for example its first write succeeds and a later statement fails) persists
none of its Row Store writes: the database after the effect-carrying call of
`processMutation` is exactly the database before it. -/
theorem c1_mutation_transaction_atomic (effect : Mutation → Except String (List DbStep))
    (db : DB) (g : String) (m : Mutation) (e : String)
    (herr : (mutate ⟨db, false⟩ m effect).2 = some e) :
    (processMutation effect db g m none).db = db := by
  rcases lt_trichotomy m.id ((getClientForUpdate db m.clientID).lastMutationID + 1)
    with h | h | h
  · rw [pm_skip effect db g m none h]
  · rw [pm_err effect db g m e h herr]
  · rw [pm_future effect db g m none (by omega)]

/-- C1 witness: an effect whose first write succeeds and whose second
statement fails persists nothing. -/
theorem c1_witness :
    (mutate ⟨exDb, false⟩ exM1 exEffectFail).2 = some "boom" ∧
    (processMutation exEffectFail exDb "g1" exM1 none).db = exDb :=
  ⟨by decide, c1_mutation_transaction_atomic exEffectFail exDb "g1" exM1 "boom" (by decide)⟩

/-- C2 counterexample: a push batch containing a mutation with an unknown
name fails as a whole at schema validation, contradicting the claim that the
unknown mutation is a successful no-op and the rest of the batch is still
processed: the push returns an error and the second (valid, id 1) mutation is
never applied, the client's lastMutationID staying 0. -/
theorem c2_counterexample :
    (push exEffectNoop exDb exReqBad).2.isSome = true ∧
    (getClientForUpdate (push exEffectNoop exDb exReqBad).1 "c1").lastMutationID = 0 := by
  constructor <;> decide

/-- C2 amended: a push request containing a mutation whose name is outside
the `mutationNames` enumeration is rejected as a whole by
`pushRequestSchema.parse`: no mutation of the batch is processed and the
state is unchanged.  (Only a name accepted by the schema but absent from the
`mutate` switch would be a no-op.) -/
theorem c2_unknown_name_rejects_batch (effect : Mutation → Except String (List DbStep))
    (db : DB) (req : PushRequest)
    (h : ∃ m ∈ req.mutations, mutationNames.contains m.name = false) :
    push effect db req = (db, some parseErrorMsg) := by
  obtain ⟨m, hm, hname⟩ := h
  have hfalse : parsePushRequest req = false := by
    cases hp : parsePushRequest req with
    | false => rfl
    | true =>
      unfold parsePushRequest at hp
      have := List.all_eq_true.mp hp m hm
      rw [hname] at this
      cases this
  simp [push, hfalse]

/-- C2 witness for the amended claim at concrete inputs. -/
theorem c2_witness :
    (∃ m ∈ exReqBad.mutations, mutationNames.contains m.name = false) ∧
    push exEffectNoop exDb exReqBad = (exDb, some parseErrorMsg) := by
  have hw : ∃ m ∈ exReqBad.mutations, mutationNames.contains m.name = false := by decide
  exact ⟨hw, c2_unknown_name_rejects_batch exEffectNoop exDb exReqBad hw⟩

/-- C3: a mutation with the expected id whose effect raises a domain error
still advances the client's lastMutationID and the group's clientVersion by
exactly one, writes nothing to the Row Store, and the rest of the batch is
processed from that advanced state exactly as it would be on its own. -/
theorem c3_domain_error_forward_progress (effect : Mutation → Except String (List DbStep))
    (db : DB) (g : String) (m : Mutation) (rest : List Mutation) (e : String)
    (hid : m.id = (getClientForUpdate db m.clientID).lastMutationID + 1)
    (herr : (mutate ⟨db, false⟩ m effect).2 = some e) :
    ∃ db' : DB,
      pushLoop effect db g (m :: rest) = pushLoop effect db' g rest ∧
      (getClientForUpdate db' m.clientID).lastMutationID =
        (getClientForUpdate db m.clientID).lastMutationID + 1 ∧
      (getClientGroupForUpdate db' g).clientVersion =
        (getClientGroupForUpdate db g).clientVersion + 1 ∧
      db'.rowStore = db.rowStore := by
  refine ⟨applyVersionUpdates db g m (getClientGroupForUpdate db g).cvrVersion
    ((getClientGroupForUpdate db g).clientVersion + 1)
    ((getClientForUpdate db m.clientID).lastMutationID + 1), ?_, ?_, ?_, ?_⟩
  · have h1 := pm_err effect db g m e hid herr
    have h2 := pm_errpass effect db g m e hid
    simp [pushLoop, h1, h2]
  · rw [applyVU_client]
  · rw [applyVU_group]
  · rw [applyVU_rowStore]

/-- C3 witness: a first mutation with a failing effect advances the version
counters by one and leaves the row store empty. -/
theorem c3_witness :
    exM1.id = (getClientForUpdate exDb exM1.clientID).lastMutationID + 1 ∧
    (mutate ⟨exDb, false⟩ exM1 exEffectFail).2 = some "boom" ∧
    ∃ db' : DB,
      pushLoop exEffectFail exDb "g1" (exM1 :: []) = pushLoop exEffectFail db' "g1" [] ∧
      (getClientForUpdate db' exM1.clientID).lastMutationID =
        (getClientForUpdate exDb exM1.clientID).lastMutationID + 1 ∧
      (getClientGroupForUpdate db' "g1").clientVersion =
        (getClientGroupForUpdate exDb "g1").clientVersion + 1 ∧
      db'.rowStore = exDb.rowStore :=
  ⟨by decide, by decide,
    c3_domain_error_forward_progress exEffectFail exDb "g1" exM1 [] "boom"
      (by decide) (by decide)⟩

/-- C4: a mutation whose id is beyond lastMutationID + 1 aborts the whole
batch with a fatal error: the state committed by earlier mutations is kept
as-is, and the mutations after it are never processed (the outcome does not
depend on them). -/
theorem c4_future_mutation_aborts_batch (effect : Mutation → Except String (List DbStep))
    (db : DB) (g : String) (m : Mutation) (rest rest' : List Mutation)
    (h : (getClientForUpdate db m.clientID).lastMutationID + 1 < m.id) :
    pushLoop effect db g (m :: rest) = (db, some futureMutationMsg) ∧
    pushLoop effect db g (m :: rest) = pushLoop effect db g (m :: rest') := by
  have h1 := pm_future effect db g m none h
  constructor
  · simp [pushLoop, h1]
  · simp [pushLoop, h1]

/-- C4 witness: mutation id 5 against a fresh client aborts the batch and
leaves the state unchanged, whatever follows it. -/
theorem c4_witness :
    pushLoop exEffectWrite exDb "g1" (exM5 :: [exM1]) = (exDb, some futureMutationMsg) ∧
    pushLoop exEffectWrite exDb "g1" (exM5 :: [exM1]) =
      pushLoop exEffectWrite exDb "g1" (exM5 :: []) :=
  c4_future_mutation_aborts_batch exEffectWrite exDb "g1" exM5 [exM1] [] (by decide)

/-- C5: submitting the same mutation twice leaves the stored state after the
second submission identical to the state after the first (the second pass
commits nothing), and a mutation id below lastMutationID + 1 commits a no-op
transaction that changes nothing at all. -/
theorem c5_replay_idempotent (effect : Mutation → Except String (List DbStep))
    (db : DB) (g : String) (m : Mutation) (db' : DB) :
    (pushLoop effect db g [m] = (db', none) → pushLoop effect db' g [m] = (db', none)) ∧
    (m.id < (getClientForUpdate db m.clientID).lastMutationID + 1 →
      processMutation effect db g m none = ⟨db, Except.ok PMRet.nullRet⟩) := by
  constructor
  · intro h
    rcases lt_trichotomy m.id ((getClientForUpdate db m.clientID).lastMutationID + 1)
      with hc | hc | hc
    · have hfirst : pushLoop effect db g [m] = (db, none) := by
        simp [pushLoop, pm_skip effect db g m none hc]
      rw [hfirst] at h
      have hdb : db = db' := congrArg Prod.fst h
      subst hdb
      exact hfirst
    · cases hm2 : (mutate ⟨db, false⟩ m effect).2 with
      | none =>
        have hp := pm_ok effect db g m hc hm2
        have hfirst : pushLoop effect db g [m] =
            (applyVersionUpdates (mutate ⟨db, false⟩ m effect).1.db g m
              (getClientGroupForUpdate db g).cvrVersion
              ((getClientGroupForUpdate db g).clientVersion + 1)
              ((getClientForUpdate db m.clientID).lastMutationID + 1), none) := by
          simp [pushLoop, hp]
        rw [hfirst] at h
        have hdb := congrArg Prod.fst h
        simp only at hdb
        subst hdb
        have hlt : m.id < (getClientForUpdate (applyVersionUpdates
            (mutate ⟨db, false⟩ m effect).1.db g m
            (getClientGroupForUpdate db g).cvrVersion
            ((getClientGroupForUpdate db g).clientVersion + 1)
            ((getClientForUpdate db m.clientID).lastMutationID + 1))
            m.clientID).lastMutationID + 1 := by
          rw [applyVU_client]
          show m.id < ((getClientForUpdate db m.clientID).lastMutationID + 1) + 1
          omega
        simp [pushLoop, pm_skip effect _ g m none hlt]
      | some e =>
        have h1 := pm_err effect db g m e hc hm2
        have h2 := pm_errpass effect db g m e hc
        have hfirst : pushLoop effect db g [m] =
            (applyVersionUpdates db g m (getClientGroupForUpdate db g).cvrVersion
              ((getClientGroupForUpdate db g).clientVersion + 1)
              ((getClientForUpdate db m.clientID).lastMutationID + 1), none) := by
          simp [pushLoop, h1, h2]
        rw [hfirst] at h
        have hdb := congrArg Prod.fst h
        simp only at hdb
        subst hdb
        have hlt : m.id < (getClientForUpdate (applyVersionUpdates db g m
            (getClientGroupForUpdate db g).cvrVersion
            ((getClientGroupForUpdate db g).clientVersion + 1)
            ((getClientForUpdate db m.clientID).lastMutationID + 1))
            m.clientID).lastMutationID + 1 := by
          rw [applyVU_client]
          show m.id < ((getClientForUpdate db m.clientID).lastMutationID + 1) + 1
          omega
        simp [pushLoop, pm_skip effect _ g m none hlt]
    · have h1 := pm_future effect db g m none hc
      simp [pushLoop, h1] at h
  · exact pm_skip effect db g m none

/-- C5 witness: applying the same mutation again after a successful first
application leaves the stored state unchanged. -/
theorem c5_witness :
    pushLoop exEffectWrite exDb "g1" [exM1] = (exDbAfter, none) ∧
    pushLoop exEffectWrite exDbAfter "g1" [exM1] = (exDbAfter, none) :=
  ⟨by decide, (c5_replay_idempotent exEffectWrite exDb "g1" exM1 exDbAfter).1 (by decide)⟩

/-- C10: the second, error-carrying call of `processMutation` never invokes
the mutation's effect (its outcome is the same for every effect function) and
never touches the Row Store: it changes only the Client and ClientGroup
version rows. -/
theorem c10_error_pass_no_effect (effect effect2 : Mutation → Except String (List DbStep))
    (db : DB) (g : String) (m : Mutation) (e : String) :
    processMutation effect db g m (some e) = processMutation effect2 db g m (some e) ∧
    (processMutation effect db g m (some e)).db.rowStore = db.rowStore := by
  rcases lt_trichotomy m.id ((getClientForUpdate db m.clientID).lastMutationID + 1)
    with h | h | h
  · rw [pm_skip effect db g m (some e) h, pm_skip effect2 db g m (some e) h]
    exact ⟨rfl, rfl⟩
  · rw [pm_errpass effect db g m e h, pm_errpass effect2 db g m e h]
    exact ⟨rfl, applyVU_rowStore db g m _ _ _⟩
  · rw [pm_future effect db g m (some e) (by omega), pm_future effect2 db g m (some e)
      (by omega)]
    exact ⟨rfl, rfl⟩

/-- C10 witness: the error pass behaves identically under a writing effect
and a failing effect, and preserves the row store. -/
theorem c10_witness :
    processMutation exEffectWrite exDb "g1" exM1 (some "x") =
      processMutation exEffectFail exDb "g1" exM1 (some "x") ∧
    (processMutation exEffectWrite exDb "g1" exM1 (some "x")).db.rowStore = exDb.rowStore :=
  c10_error_pass_no_effect exEffectWrite exEffectFail exDb "g1" exM1 "x"

end Repliear
